import Mathlib

/-!
# Verification of the ingestion-and-aggregation pipeline of the Dashboard app

This file embeds the data pipeline of `src/app.py` (a pandas-based fire/weather
dashboard) as executable Lean definitions and proves properties about it.

Modelling conventions:
* a pandas `DataFrame` is a `List` of typed records holding exactly the columns
  the program touches;
* a Python exception that propagates is modelled by `Option.none` (the program
  either returns a value, `some`, or raises, `none`);
* machine text is modelled as `String`/`List Char`; raw file bytes as
  `List Nat`, each element intended `< 256`;
* numeric weather measurements are modelled as `ℚ` (the claims under study are
  about exact aggregation algebra, not float rounding).
-/

/-! ## Calendar dates -/

/-- A calendar date (year, month, day), the model of a pandas date-only
timestamp value. -/
structure Ymd where
  y : Nat
  m : Nat
  d : Nat
deriving DecidableEq, Repr

/-- Gregorian leap-year test. -/
def isLeapYear (y : Nat) : Bool :=
  (decide (y % 4 = 0) && !decide (y % 100 = 0)) || decide (y % 400 = 0)

/-- Number of days of month `m` of year `y` (Gregorian calendar). -/
def daysInMonth (y m : Nat) : Nat :=
  if m = 2 then (if isLeapYear y then 29 else 28)
  else if m = 4 ∨ m = 6 ∨ m = 9 ∨ m = 11 then 30
  else 31

/-- Smart constructor for a date: `some` exactly when the components form a
valid calendar date. -/
def mkValidYmd (y m d : Nat) : Option Ymd :=
  if 1 ≤ y ∧ 1 ≤ m ∧ m ≤ 12 ∧ 1 ≤ d ∧ d ≤ daysInMonth y m then
    some ⟨y, m, d⟩
  else none

/-- Value of a list of decimal digit characters. -/
def digitsToNat (l : List Char) : Nat :=
  l.foldl (fun a c => 10 * a + (c.toNat - 48)) 0

/-- The year spelled by the first four characters of an 8-character string,
`none` unless the string has exactly 8 characters of which the first four are
decimal digits.  Used to state the year-digit/column consistency claims. -/
def yearDigits (s : String) : Option Nat :=
  match s.toList with
  | [c1, c2, c3, c4, _, _, _, _] =>
    if [c1, c2, c3, c4].all Char.isDigit then some (digitsToNat [c1, c2, c3, c4])
    else none
  | _ => none

/-- The month spelled by the 5th and 6th characters of an 8-character
string. -/
def monthDigits (s : String) : Option Nat :=
  match s.toList with
  | [_, _, _, _, c5, c6, _, _] =>
    if [c5, c6].all Char.isDigit then some (digitsToNat [c5, c6])
    else none
  | _ => none

/-- The day spelled by the 7th and 8th characters of an 8-character string. -/
def dayDigits (s : String) : Option Nat :=
  match s.toList with
  | [_, _, _, _, _, _, c7, c8] =>
    if [c7, c8].all Char.isDigit then some (digitsToNat [c7, c8])
    else none
  | _ => none

/-- Numeric code of a date, strictly monotone on valid dates. -/
def ymdCode (d : Ymd) : Nat := d.y * 10000 + d.m * 100 + d.d

/-- Whether a date's midnight fits in a pandas `Timestamp` (an `int64` count
of nanoseconds since the epoch): `Timestamp.min` is
1677-09-21 00:12:43.145224193, so the first whole day is 1677-09-22, and
`Timestamp.max` is 2262-04-11 23:47:16.854775807, so the last whole day is
2262-04-11.  `pd.to_datetime` raises `OutOfBoundsDatetime` for dates outside
this range even when they are valid calendar dates. -/
def inTimestampRange (d : Ymd) : Bool :=
  decide (16770922 ≤ ymdCode d) && decide (ymdCode d ≤ 22620411)

/-- Model of `pd.to_datetime(s, format="%Y%m%d")` applied to one string value:
succeeds exactly on strings of exactly 8 decimal digits denoting a valid
calendar date within the pandas `Timestamp` range; any other input raises
(`none`) — a malformed or invalid-date string with a parse error, an
out-of-range date with `OutOfBoundsDatetime`. -/
def parseYmd (s : String) : Option Ymd :=
  match yearDigits s, monthDigits s, dayDigits s with
  | some y, some m, some d =>
    (mkValidYmd y m d).bind
      (fun dt => if inTimestampRange dt then some dt else none)
  | _, _, _ => none

/-- Model of `pd.to_datetime` applied to one weather timestamp string
(`일시` column): accepts `YYYY-MM-DD...` and keeps the date-only part, as the
subsequent `.dt.date` projection in the program does.  Validation of the
time-of-day suffix and the `Timestamp` range bound are not modelled here (no
claim depends on the weather parser's failure condition; every claim using it
is conditional on a successful `preprocess_weather`). -/
def parseTimestamp (s : String) : Option Ymd :=
  match s.toList with
  | c1 :: c2 :: c3 :: c4 :: s1 :: c5 :: c6 :: s2 :: c7 :: c8 :: _ =>
    if s1 = '-' ∧ s2 = '-' ∧ [c1, c2, c3, c4, c5, c6, c7, c8].all Char.isDigit then
      mkValidYmd (digitsToNat [c1, c2, c3, c4]) (digitsToNat [c5, c6])
        (digitsToNat [c7, c8])
    else none
  | _ => none

/-! ## Generic list machinery: all-or-nothing mapping, insertion sort,
grouping -/

/-- All-or-nothing traversal: models a pandas column-wise operation that
raises on the first bad row (`pd.to_datetime` over a whole column). -/
def mapOpt (f : α → Option β) : List α → Option (List β)
  | [] => some []
  | a :: l =>
    match f a with
    | none => none
    | some b => (mapOpt f l).map (fun bs => b :: bs)

/-- Insert `a` into `l` in front of the first element `b` with `le a b`. -/
def ordIns (le : α → α → Bool) (a : α) : List α → List α
  | [] => [a]
  | b :: l => if le a b then a :: b :: l else b :: ordIns le a l

/-- Insertion sort by the boolean relation `le`; stable (an element placed
earlier in the input stays in front of later elements it ties with).  Models
a deterministic pandas `sort_values`. -/
def insSort (le : α → α → Bool) : List α → List α
  | [] => []
  | a :: l => ordIns le a (insSort le l)

/-- Fuel-indexed worker for `groupRows` (fuel makes the recursion structural,
so that concrete instances reduce definitionally). -/
def groupRowsF (key : α → κ) [DecidableEq κ] : Nat → List α → List (κ × List α)
  | _, [] => []
  | 0, _ :: _ => []
  | fuel + 1, r :: rs =>
    (key r, r :: rs.filter (fun x => decide (key x = key r))) ::
      groupRowsF key fuel (rs.filter (fun x => !decide (key x = key r)))

/-- Model of `DataFrame.groupby(key)`: one entry per distinct key, in first
encounter order, carrying all rows of that key in input order.  (pandas
additionally sorts the group keys; the pipeline definitions below apply an
explicit key sort after grouping to model that.) -/
def groupRows (key : α → κ) [DecidableEq κ] (l : List α) : List (κ × List α) :=
  groupRowsF key l.length l

/-- Model of `groupby(key).size()`: per distinct key, the number of rows. -/
def groupCount (key : α → κ) [DecidableEq κ] (l : List α) : List (κ × Nat) :=
  (groupRows key l).map (fun g => (g.1, g.2.length))

/-- Codepoint-lexicographic comparison of character lists (how Python compares
`str` values, hence how pandas sorts string group keys). -/
def charListLe : List Char → List Char → Bool
  | [], _ => true
  | _ :: _, [] => false
  | a :: as, b :: bs =>
    if a.toNat < b.toNat then true
    else if b.toNat < a.toNat then false
    else charListLe as bs

/-- Ascending order on `String`-keyed group entries. -/
def strKeyLe (a b : String × β) : Bool := charListLe a.1.toList b.1.toList

/-- Ascending lexicographic order on `(year, month)`-keyed group entries. -/
def natPairKeyLe (a b : (Nat × Nat) × β) : Bool :=
  decide (a.1.1 < b.1.1) || (decide (a.1.1 = b.1.1) && decide (a.1.2 ≤ b.1.2))

/-- Ascending order on date-keyed group entries. -/
def ymdKeyLe (a b : Ymd × β) : Bool := decide (ymdCode a.1 ≤ ymdCode b.1)

/-- Descending order by count: the comparison of
`sort_values("건수", ascending=False)`. -/
def countDescLe (a b : κ × Nat) : Bool := decide (b.2 ≤ a.2)

/-! ## The incident (fire) pipeline: `preprocess_fire` -/

/-- One raw incident record, holding the columns `preprocess_fire` and the
claims touch.  `OCRN_YMD` is the 8-digit occurrence-date field, taken in its
string form (the program applies `.astype(str)` before parsing). -/
structure FireRow where
  GRNDS_CTPV_NM : String
  OCRN_YR : Nat
  OCRN_MM : Nat
  OCRN_YMD : String
  IGTN_DMNT_LCLSF_NM : String
  GRNDS_SGG_NM : String
  DTH_CNT : Nat
  INJPSN_CNT : Nat
  PRPT_DAM_AMT : Nat
deriving DecidableEq, Repr

/-- A row of the derived `seoul` table: the source row plus the derived
columns `연도` (year, copied from `OCRN_YR`), `월` (month, copied from
`OCRN_MM`) and `발생일` (occurredOn, parsed from `OCRN_YMD`). -/
structure SeoulFireRow where
  src : FireRow
  year : Nat
  month : Nat
  occurredOn : Ymd
deriving DecidableEq, Repr

/-- The region predicate of line 43: `fire["GRNDS_CTPV_NM"] == "서울특별시"`. -/
def firePred (r : FireRow) : Bool := decide (r.GRNDS_CTPV_NM = "서울특별시")

/-- The region filter of line 43 of `app.py`. -/
def seoulOnly (fire : List FireRow) : List FireRow := fire.filter firePred

/-- Derivation of one `seoul` row (lines 45–47): copy `OCRN_YR`/`OCRN_MM`,
parse `OCRN_YMD`; a parse failure raises. -/
def mkSeoulRow (r : FireRow) : Option SeoulFireRow :=
  (parseYmd r.OCRN_YMD).map (fun d => ⟨r, r.OCRN_YR, r.OCRN_MM, d⟩)

/-- The result tuple of `preprocess_fire`:
`(seoul, monthly, cause, region)`. -/
structure FireOut where
  seoul : List SeoulFireRow
  monthly : List ((Nat × Nat) × Nat)
  cause : List (String × Nat)
  region : List (String × Nat)
deriving DecidableEq, Repr

/-- Model of `preprocess_fire` (lines 41–68 of `app.py`): filter to the
target region, derive year/month/occurrence-date columns (raising if any
selected row's date fails to parse), then build
* `monthly`: `groupby(["연도","월"]).size()` (pandas sorts the group keys);
* `cause`: `groupby("IGTN_DMNT_LCLSF_NM").size().sort_values(ascending=False)`;
* `region`: `groupby("GRNDS_SGG_NM").size().sort_values(ascending=False)`.
The descending count sort is modelled as a deterministic stable sort applied
after the key sort performed by `groupby`. -/
def preprocess_fire (fire : List FireRow) : Option FireOut :=
  (mapOpt mkSeoulRow (seoulOnly fire)).map (fun seoul =>
    { seoul := seoul
      monthly :=
        insSort natPairKeyLe (groupCount (fun s => (s.year, s.month)) seoul)
      cause :=
        insSort countDescLe
          (insSort strKeyLe (groupCount (fun s => s.src.IGTN_DMNT_LCLSF_NM) seoul))
      region :=
        insSort countDescLe
          (insSort strKeyLe (groupCount (fun s => s.src.GRNDS_SGG_NM) seoul)) })

/-! ## The weather pipeline: `preprocess_weather` -/

/-- One raw weather observation, with the columns `preprocess_weather`
touches: `지점명` (station name), `일시` (timestamp string), `기온(°C)`,
`습도(%)`, `강수량(mm)`. -/
structure WeatherRow where
  stationName : String
  dateTime : String
  temperatureC : ℚ
  humidityPct : ℚ
  precipitationMm : ℚ
deriving DecidableEq, Repr

/-- A row of the derived `w` table: source row plus `연도`/`월`/`날짜`
extracted from the parsed timestamp (lines 74–78). -/
structure WxRow where
  src : WeatherRow
  year : Nat
  month : Nat
  date : Ymd
deriving DecidableEq, Repr

/-- The station predicate of line 73: `weather["지점명"] == "서울"`. -/
def weatherPred (r : WeatherRow) : Bool := decide (r.stationName = "서울")

/-- Derivation of one `w` row: parse `일시`, keep its year/month/date. -/
def mkWxRow (r : WeatherRow) : Option WxRow :=
  (parseTimestamp r.dateTime).map (fun d => ⟨r, d.y, d.m, d⟩)

/-- A weather aggregate: mean temperature, mean humidity, summed
precipitation (the `.agg` dictionary of lines 83–89 and 96–102). -/
structure WAgg where
  temperature : ℚ
  humidity : ℚ
  precipitation : ℚ
deriving DecidableEq, Repr

/-- Arithmetic mean of a list of rationals (pandas `"mean"` reduction; groups
are never empty, and `qmean` is only ever applied to nonempty groups). -/
def qmean (l : List ℚ) : ℚ := l.sum / l.length

/-- The `"mean"/"mean"/"sum"` aggregation of one weather group. -/
def wAggOf (g : List WxRow) : WAgg :=
  ⟨qmean (g.map (fun s => s.src.temperatureC)),
   qmean (g.map (fun s => s.src.humidityPct)),
   (g.map (fun s => s.src.precipitationMm)).sum⟩

/-- `groupby(key).agg({mean, mean, sum})` over derived weather rows. -/
def groupWAgg (key : WxRow → κ) [DecidableEq κ] (l : List WxRow) :
    List (κ × WAgg) :=
  (groupRows key l).map (fun g => (g.1, wAggOf g.2))

/-- The result tuple of `preprocess_weather`: `(w, monthly, daily)`. -/
structure WeatherOut where
  w : List WxRow
  monthly : List ((Nat × Nat) × WAgg)
  daily : List (Ymd × WAgg)
deriving DecidableEq, Repr

/-- Model of `preprocess_weather` (lines 71–107 of `app.py`): filter to the
target station, parse the timestamp column (raising on any bad row), derive
year/month/date, then aggregate mean temperature, mean humidity and summed
precipitation per `(연도, 월)` and per `날짜` (pandas sorts the group keys;
line 105 converts the daily date key back to a timestamp, which is the
identity in this date model). -/
def preprocess_weather (weather : List WeatherRow) : Option WeatherOut :=
  (mapOpt mkWxRow (weather.filter weatherPred)).map (fun w =>
    { w := w
      monthly := insSort natPairKeyLe (groupWAgg (fun s => (s.year, s.month)) w)
      daily := insSort ymdKeyLe (groupWAgg (fun s => s.date) w) })

/-! ## The temporal joiner: `make_daily_merge` and the monthly merge -/

/-- Model of `pd.merge(l, r, how="inner")` on an exact-equality key: for each
left row, one output row per right row with the same key, carrying the key
and the non-key columns of both sides. -/
def innerMerge [DecidableEq κ] : List (κ × β) → List (κ × γ) → List (κ × β × γ)
  | [], _ => []
  | lb :: l, r =>
    (r.filter (fun rc => decide (rc.1 = lb.1))).map (fun rc => (lb.1, lb.2, rc.2))
      ++ innerMerge l r

/-- `daily_fire = seoul_fire.groupby("발생일").size()` (line 112); pandas
sorts the group keys. -/
def daily_fire_counts (rows : List SeoulFireRow) : List (Ymd × Nat) :=
  insSort ymdKeyLe (groupCount (fun s => s.occurredOn) rows)

/-- Model of `make_daily_merge` (lines 110–121): inner-join the daily fire
counts with the daily weather summary on the date key. -/
def make_daily_merge (rows : List SeoulFireRow) (dw : List (Ymd × WAgg)) :
    List (Ymd × Nat × WAgg) :=
  innerMerge (daily_fire_counts rows) dw

/-- Model of the monthly merge in `main` (lines 331–336):
`pd.merge(monthly_fire, monthly_weather, on=["연도","월"], how="inner")`. -/
def monthly_merge (mf : List ((Nat × Nat) × Nat))
    (mw : List ((Nat × Nat) × WAgg)) : List ((Nat × Nat) × Nat × WAgg) :=
  innerMerge mf mw

/-! ## The encoding-resilient reader: `read_csv_any` -/

/-- Model of one byte's strict latin1 (ISO-8859-1) decoding: every byte value
below 256 decodes to the character of the same code; nothing else is a byte. -/
def latin1CharStrict (b : Nat) : Option Char :=
  if b < 256 then some (Char.ofNat b) else none

/-- Strict decode of a byte string as latin1, the 4th candidate of
`read_csv_any`: raises (`none`) iff some element is not a byte. -/
def latin1DecodeStrict (raw : List Nat) : Option (List Char) :=
  mapOpt latin1CharStrict raw

/-- Decode of a byte string as latin1 with `errors="ignore"` (undecodable
positions dropped, never fatal), the last-resort decode of `read_csv_any`. -/
def latin1DecodeIgnore (raw : List Nat) : List Char :=
  raw.filterMap latin1CharStrict

/-- The external text codecs and the delimited-table parser `read_csv_any`
calls into.  These are library functions (Python codecs and
`pandas.read_csv`), not repository code, so the reader is modelled
parametrically in them; `none` models a raised exception. -/
structure Codecs (τ : Type) where
  utf8sig : List Nat → Option (List Char)
  cp949 : List Nat → Option (List Char)
  euckr : List Nat → Option (List Char)
  parse : List Char → Option τ

/-- Model of `read_csv_any` (lines 12–27 of `app.py`): try
decode-then-parse with each candidate encoding (`utf-8-sig`, `cp949`,
`euc-kr`, `latin1`) in order, swallowing any exception; if all fail, decode
as latin1 with errors ignored and parse, this time with no exception
handler, so a parse failure propagates (`none`). -/
def read_csv_any (c : Codecs τ) (raw : List Nat) : Option τ :=
  match (c.utf8sig raw).bind c.parse with
  | some t => some t
  | none =>
    match (c.cp949 raw).bind c.parse with
    | some t => some t
    | none =>
      match (c.euckr raw).bind c.parse with
      | some t => some t
      | none =>
        match (latin1DecodeStrict raw).bind c.parse with
        | some t => some t
        | none => c.parse (latin1DecodeIgnore raw)

/-- Split a character list at newline characters. -/
def splitLines : List Char → List (List Char)
  | [] => [[]]
  | c :: rest =>
    if c = '\n' then [] :: splitLines rest
    else
      match splitLines rest with
      | [] => [[c]]
      | l :: ls => (c :: l) :: ls

/-- Model of the structural behaviour of `pandas.read_csv` (an external
library function): it raises `EmptyDataError` exactly when the text contains
no non-empty line, and otherwise returns the table of non-empty lines.
Column splitting is not modelled; no claim depends on it. -/
def pandasParse (cs : List Char) : Option (List (List Char)) :=
  let ls := (splitLines cs).filter (fun l => !l.isEmpty)
  if ls.isEmpty then none else some ls

/-- A decoder defined on the ASCII subset shared by `utf-8-sig`, `cp949` and
`euc-kr` (all three are ASCII-compatible): used to instantiate the reader at
the concrete inputs of witnesses and counterexamples, where all real
candidate codecs behave exactly like this. -/
def asciiDecode (raw : List Nat) : Option (List Char) :=
  if raw.all (fun b => decide (b < 128)) then some (raw.map Char.ofNat)
  else none

/-- The concrete codec instantiation used by witnesses and counterexamples. -/
def pandasCodecs : Codecs (List (List Char)) :=
  ⟨asciiDecode, asciiDecode, asciiDecode, pandasParse⟩

/-! ## Generic lemmas -/

theorem mapOpt_eq_none_iff {f : α → Option β} :
    ∀ {l : List α}, mapOpt f l = none ↔ ∃ a ∈ l, f a = none := by
  intro l
  induction l with
  | nil => simp [mapOpt]
  | cons a l ih =>
    cases h : f a with
    | none =>
      have hme : mapOpt f (a :: l) = none := by simp [mapOpt, h]
      rw [hme]
      exact iff_of_true rfl ⟨a, List.mem_cons_self a l, h⟩
    | some b =>
      simp only [mapOpt, h, Option.map_eq_none', ih, List.mem_cons]
      constructor
      · rintro ⟨x, hx, hfx⟩
        exact ⟨x, Or.inr hx, hfx⟩
      · rintro ⟨x, hx | hx, hfx⟩
        · subst hx
          rw [h] at hfx
          exact absurd hfx (by simp)
        · exact ⟨x, hx, hfx⟩

theorem mapOpt_length {f : α → Option β} :
    ∀ {l : List α} {l' : List β}, mapOpt f l = some l' → l'.length = l.length := by
  intro l
  induction l with
  | nil =>
    intro l' h
    simp only [mapOpt, Option.some.injEq] at h
    subst h
    rfl
  | cons a l ih =>
    intro l' h
    cases hfa : f a with
    | none => rw [mapOpt, hfa] at h; exact absurd h (by simp)
    | some b =>
      rw [mapOpt, hfa] at h
      cases hm : mapOpt f l with
      | none => rw [hm] at h; exact absurd h (by simp)
      | some bs =>
        rw [hm] at h
        simp only [Option.map_some', Option.some.injEq] at h
        subst h
        simp [ih hm]

theorem mapOpt_mem {f : α → Option β} :
    ∀ {l : List α} {l' : List β}, mapOpt f l = some l' →
      ∀ {b : β}, b ∈ l' → ∃ a ∈ l, f a = some b := by
  intro l
  induction l with
  | nil =>
    intro l' h b hb
    simp only [mapOpt, Option.some.injEq] at h
    subst h
    exact absurd hb (by simp)
  | cons a l ih =>
    intro l' h b hb
    cases hfa : f a with
    | none => rw [mapOpt, hfa] at h; exact absurd h (by simp)
    | some b0 =>
      rw [mapOpt, hfa] at h
      cases hm : mapOpt f l with
      | none => rw [hm] at h; exact absurd h (by simp)
      | some bs =>
        rw [hm] at h
        simp only [Option.map_some', Option.some.injEq] at h
        subst h
        rcases List.mem_cons.mp hb with rfl | hb'
        · exact ⟨a, List.mem_cons_self a l, hfa⟩
        · obtain ⟨x, hx, hfx⟩ := ih hm hb'
          exact ⟨x, List.mem_cons_of_mem a hx, hfx⟩

theorem mem_ordIns {le : α → α → Bool} {a x : α} :
    ∀ {l : List α}, x ∈ ordIns le a l ↔ x = a ∨ x ∈ l := by
  intro l
  induction l with
  | nil => simp [ordIns]
  | cons b l ih =>
    by_cases h : le a b = true
    · simp only [ordIns, if_pos h, List.mem_cons]
    · simp only [ordIns, if_neg h, List.mem_cons, ih]
      tauto

theorem ordIns_perm (le : α → α → Bool) (a : α) :
    ∀ l : List α, (ordIns le a l).Perm (a :: l) := by
  intro l
  induction l with
  | nil => exact List.Perm.refl _
  | cons b l ih =>
    by_cases h : le a b = true
    · rw [ordIns, if_pos h]
    · rw [ordIns, if_neg h]
      exact (ih.cons b).trans (List.Perm.swap a b l)

theorem insSort_perm (le : α → α → Bool) :
    ∀ l : List α, (insSort le l).Perm l := by
  intro l
  induction l with
  | nil => exact List.Perm.refl _
  | cons a l ih =>
    exact (ordIns_perm le a (insSort le l)).trans (ih.cons a)

theorem pairwise_ordIns {le : α → α → Bool}
    (htot : ∀ a b, le a b = true ∨ le b a = true)
    (htr : ∀ a b c, le a b = true → le b c = true → le a c = true) (a : α) :
    ∀ {l : List α}, l.Pairwise (fun x y => le x y = true) →
      (ordIns le a l).Pairwise (fun x y => le x y = true) := by
  intro l
  induction l with
  | nil =>
    intro _
    simp [ordIns]
  | cons b l ih =>
    intro hp
    rw [List.pairwise_cons] at hp
    obtain ⟨hb, hl⟩ := hp
    by_cases h : le a b = true
    · rw [ordIns, if_pos h]
      refine List.Pairwise.cons ?_ (List.Pairwise.cons hb hl)
      intro y hy
      rcases List.mem_cons.mp hy with rfl | hy
      · exact h
      · exact htr a b y h (hb y hy)
    · rw [ordIns, if_neg h]
      refine List.Pairwise.cons ?_ (ih hl)
      intro y hy
      rcases mem_ordIns.mp hy with rfl | hy
      · rcases htot y b with h' | h'
        · exact absurd h' h
        · exact h'
      · exact hb y hy

theorem insSort_pairwise {le : α → α → Bool}
    (htot : ∀ a b, le a b = true ∨ le b a = true)
    (htr : ∀ a b c, le a b = true → le b c = true → le a c = true) :
    ∀ l : List α, (insSort le l).Pairwise (fun x y => le x y = true) := by
  intro l
  induction l with
  | nil => simp [insSort]
  | cons a l ih => exact pairwise_ordIns htot htr a ih

theorem length_filter_split (p : α → Bool) (l : List α) :
    (l.filter p).length + (l.filter (fun a => !p a)).length = l.length :=
  (List.length_eq_length_filter_add p).symm

theorem groupRowsF_sum (key : α → κ) [DecidableEq κ] :
    ∀ (fuel : Nat) (l : List α), l.length ≤ fuel →
      ((groupRowsF key fuel l).map (fun g => g.2.length)).sum = l.length := by
  intro fuel
  induction fuel with
  | zero =>
    intro l hl
    have hnil : l = [] := List.eq_nil_of_length_eq_zero (Nat.le_zero.mp hl)
    subst hnil
    rfl
  | succ fuel ih =>
    intro l hl
    cases l with
    | nil => rfl
    | cons r rs =>
      rw [groupRowsF]
      simp only [List.map_cons, List.sum_cons, List.length_cons]
      have hrest : (rs.filter (fun x => !decide (key x = key r))).length ≤ fuel :=
        le_trans (List.length_filter_le _ _) (Nat.succ_le_succ_iff.mp hl)
      rw [ih _ hrest]
      have hsplit := length_filter_split (fun x => decide (key x = key r)) rs
      omega

theorem groupRows_sum (key : α → κ) [DecidableEq κ] (l : List α) :
    ((groupRows key l).map (fun g => g.2.length)).sum = l.length :=
  groupRowsF_sum key l.length l (le_refl _)

theorem groupCount_sum (key : α → κ) [DecidableEq κ] (l : List α) :
    ((groupCount key l).map Prod.snd).sum = l.length := by
  rw [groupCount, List.map_map]
  exact groupRows_sum key l

theorem groupRowsF_mem (key : α → κ) [DecidableEq κ] :
    ∀ (fuel : Nat) (l : List α) (k : κ) (g : List α), l.length ≤ fuel →
      (k, g) ∈ groupRowsF key fuel l →
      g = l.filter (fun x => decide (key x = k)) ∧ g ≠ [] := by
  intro fuel
  induction fuel with
  | zero =>
    intro l k g hl hm
    have hnil : l = [] := List.eq_nil_of_length_eq_zero (Nat.le_zero.mp hl)
    subst hnil
    exact absurd hm (by simp [groupRowsF])
  | succ fuel ih =>
    intro l k g hl hm
    cases l with
    | nil => exact absurd hm (by simp [groupRowsF])
    | cons r rs =>
      rw [groupRowsF] at hm
      rcases List.mem_cons.mp hm with heq | hm'
      · have hk : k = key r := congrArg Prod.fst heq
        have hg : g = r :: rs.filter (fun x => decide (key x = key r)) :=
          congrArg Prod.snd heq
        subst hk
        constructor
        · rw [hg, List.filter_cons, if_pos (by simp)]
        · rw [hg]
          exact List.cons_ne_nil _ _
      · have hrest : (rs.filter (fun x => !decide (key x = key r))).length ≤ fuel :=
          le_trans (List.length_filter_le _ _) (Nat.succ_le_succ_iff.mp hl)
        obtain ⟨hg, hne⟩ := ih _ k g hrest hm'
        have hkne : k ≠ key r := by
          cases g with
          | nil => exact absurd rfl hne
          | cons x g' =>
            have hx : x ∈ (rs.filter (fun x => !decide (key x = key r))).filter
                (fun x => decide (key x = k)) := by
              rw [← hg]
              exact List.mem_cons_self x g'
            rw [List.mem_filter, List.mem_filter] at hx
            obtain ⟨⟨_, hxr⟩, hxk⟩ := hx
            have h1 : key x ≠ key r := by simpa using hxr
            have h2 : key x = k := by simpa using hxk
            rw [← h2]
            exact h1
        refine ⟨?_, hne⟩
        rw [hg, List.filter_cons, if_neg (by simp [Ne.symm hkne]), List.filter_filter]
        apply List.filter_congr
        intro x _
        by_cases hx : key x = k
        · simp only [hx, decide_True, Bool.true_and]
          simp [hkne]
        · simp [hx]

theorem groupRows_mem (key : α → κ) [DecidableEq κ] {l : List α} {k : κ}
    {g : List α} (hm : (k, g) ∈ groupRows key l) :
    g = l.filter (fun x => decide (key x = k)) ∧ g ≠ [] :=
  groupRowsF_mem key l.length l k g (le_refl _) hm

theorem innerMerge_mem [DecidableEq κ] :
    ∀ {l : List (κ × β)} {r : List (κ × γ)} {k : κ} {b : β} {c : γ},
      (k, b, c) ∈ innerMerge l r ↔ (k, b) ∈ l ∧ (k, c) ∈ r := by
  intro l
  induction l with
  | nil => simp [innerMerge]
  | cons lb l ih =>
    intro r k b c
    obtain ⟨k0, b0⟩ := lb
    rw [innerMerge, List.mem_append]
    constructor
    · rintro (hm | hm)
      · rw [List.mem_map] at hm
        obtain ⟨rc, hrc, heq⟩ := hm
        rw [List.mem_filter] at hrc
        obtain ⟨hrcr, hkey⟩ := hrc
        have hk : rc.1 = k0 := of_decide_eq_true hkey
        obtain ⟨hk1, hb1, hc1⟩ : k0 = k ∧ b0 = b ∧ rc.2 = c := by
          simpa using heq
        subst hk1
        subst hb1
        refine ⟨List.mem_cons_self _ _, ?_⟩
        have : rc = (k0, c) := by
          rw [Prod.ext_iff]
          exact ⟨hk, hc1⟩
        rw [← this]
        exact hrcr
      · obtain ⟨h1, h2⟩ := ih.mp hm
        exact ⟨List.mem_cons_of_mem _ h1, h2⟩
    · rintro ⟨h1, h2⟩
      rcases List.mem_cons.mp h1 with heq | h1'
      · obtain ⟨hk1, hb1⟩ : k = k0 ∧ b = b0 := by simpa using heq
        subst hk1
        subst hb1
        left
        rw [List.mem_map]
        refine ⟨(k, c), ?_, by simp⟩
        rw [List.mem_filter]
        exact ⟨h2, by simp⟩
      · exact Or.inr (ih.mpr ⟨h1', h2⟩)

theorem innerMerge_nil_left [DecidableEq κ] (r : List (κ × γ)) :
    innerMerge ([] : List (κ × β)) r = [] := rfl

theorem innerMerge_nil_right [DecidableEq κ] :
    ∀ l : List (κ × β), innerMerge l ([] : List (κ × γ)) = [] := by
  intro l
  induction l with
  | nil => rfl
  | cons lb l ih =>
    rw [innerMerge, ih]
    simp

theorem latin1_strict_eq_ignore :
    ∀ {raw : List Nat}, (∀ b ∈ raw, b < 256) →
      latin1DecodeStrict raw = some (latin1DecodeIgnore raw) := by
  intro raw h
  induction raw with
  | nil => rfl
  | cons b raw ih =>
    have hb : b < 256 := h b (List.mem_cons_self _ _)
    have ih' := ih (fun x hx => h x (List.mem_cons_of_mem _ hx))
    have hc : latin1CharStrict b = some (Char.ofNat b) := if_pos hb
    show mapOpt latin1CharStrict (b :: raw) = _
    rw [mapOpt, hc]
    have hrw : mapOpt latin1CharStrict raw = some (latin1DecodeIgnore raw) := ih'
    rw [hrw]
    show some (Char.ofNat b :: List.filterMap latin1CharStrict raw) =
      some (List.filterMap latin1CharStrict (b :: raw))
    rw [List.filterMap_cons, hc]

theorem mkValidYmd_eq {y m dd : Nat} {d : Ymd} (h : mkValidYmd y m dd = some d) :
    d = ⟨y, m, dd⟩ := by
  unfold mkValidYmd at h
  split at h
  · injection h with h
    exact h.symm
  · exact absurd h (by simp)

theorem parseYmd_digits {s : String} {d : Ymd} (h : parseYmd s = some d) :
    yearDigits s = some d.y ∧ monthDigits s = some d.m := by
  unfold parseYmd at h
  cases hy : yearDigits s with
  | none => rw [hy] at h; exact absurd h (by simp)
  | some y =>
    cases hm : monthDigits s with
    | none => rw [hy, hm] at h; exact absurd h (by simp)
    | some m =>
      cases hd : dayDigits s with
      | none => rw [hy, hm, hd] at h; exact absurd h (by simp)
      | some dd =>
        rw [hy, hm, hd] at h
        simp only at h
        cases hv : mkValidYmd y m dd with
        | none => rw [hv] at h; exact absurd h (by simp)
        | some dt =>
          rw [hv, Option.some_bind] at h
          split at h
          · injection h with h
            subst h
            rw [mkValidYmd_eq hv]
            exact ⟨rfl, rfl⟩
          · exact absurd h (by simp)

theorem preprocess_fire_eq_some {fire : List FireRow} {out : FireOut}
    (h : preprocess_fire fire = some out) :
    ∃ seoul, mapOpt mkSeoulRow (seoulOnly fire) = some seoul ∧
      out.seoul = seoul ∧
      out.monthly =
        insSort natPairKeyLe (groupCount (fun s => (s.year, s.month)) seoul) ∧
      out.cause =
        insSort countDescLe
          (insSort strKeyLe
            (groupCount (fun s => s.src.IGTN_DMNT_LCLSF_NM) seoul)) ∧
      out.region =
        insSort countDescLe
          (insSort strKeyLe (groupCount (fun s => s.src.GRNDS_SGG_NM) seoul)) := by
  unfold preprocess_fire at h
  cases hm : mapOpt mkSeoulRow (seoulOnly fire) with
  | none => rw [hm] at h; exact absurd h (by simp)
  | some seoul =>
    rw [hm] at h
    simp only [Option.map_some', Option.some.injEq] at h
    exact ⟨seoul, rfl, by rw [← h], by rw [← h], by rw [← h], by rw [← h]⟩

theorem preprocess_weather_eq_some {weather : List WeatherRow}
    {out : WeatherOut} (h : preprocess_weather weather = some out) :
    ∃ w, mapOpt mkWxRow (weather.filter weatherPred) = some w ∧
      out.w = w ∧
      out.monthly =
        insSort natPairKeyLe (groupWAgg (fun s => (s.year, s.month)) w) ∧
      out.daily = insSort ymdKeyLe (groupWAgg (fun s => s.date) w) := by
  unfold preprocess_weather at h
  cases hm : mapOpt mkWxRow (weather.filter weatherPred) with
  | none => rw [hm] at h; exact absurd h (by simp)
  | some w =>
    rw [hm] at h
    simp only [Option.map_some', Option.some.injEq] at h
    exact ⟨w, rfl, by rw [← h], by rw [← h], by rw [← h]⟩

/-! ## Claim theorems -/

/-- **C1.** For every pair of summaries joined on a shared time key (monthly
on `(year, month)`, daily on date), the merged table contains a row for
exactly those keys present in both inputs, carrying all non-key columns from
both sides (the row-membership characterisation below); a key present in only
one input never appears; and if either input is empty the merged result is
empty. -/
theorem C1_inner_join_exact_key_coverage :
    (∀ (rows : List SeoulFireRow) (dw : List (Ymd × WAgg)) (k : Ymd) (c : Nat)
        (wa : WAgg),
      (k, c, wa) ∈ make_daily_merge rows dw ↔
        (k, c) ∈ daily_fire_counts rows ∧ (k, wa) ∈ dw) ∧
    (∀ (mf : List ((Nat × Nat) × Nat)) (mw : List ((Nat × Nat) × WAgg))
        (ym : Nat × Nat) (c : Nat) (wa : WAgg),
      (ym, c, wa) ∈ monthly_merge mf mw ↔ (ym, c) ∈ mf ∧ (ym, wa) ∈ mw) ∧
    (∀ rows : List SeoulFireRow, make_daily_merge rows [] = []) ∧
    (∀ dw : List (Ymd × WAgg), make_daily_merge [] dw = []) ∧
    (∀ mf : List ((Nat × Nat) × Nat), monthly_merge mf [] = []) ∧
    (∀ mw : List ((Nat × Nat) × WAgg), monthly_merge [] mw = []) := by
  refine ⟨fun rows dw k c wa => innerMerge_mem,
    fun mf mw ym c wa => innerMerge_mem,
    fun rows => innerMerge_nil_right _,
    fun dw => rfl,
    fun mf => innerMerge_nil_right _,
    fun mw => rfl⟩

/-- **C9.** Region filtering is idempotent: filtering an already-filtered
table by the same region yields an identical table. -/
theorem C9_region_filter_idempotent (fire : List FireRow) :
    seoulOnly (seoulOnly fire) = seoulOnly fire := by
  show (fire.filter firePred).filter firePred = fire.filter firePred
  rw [List.filter_filter]
  simp

/-- A one-row incident table whose selected row's date field `"15000101"` is
exactly 8 digits and denotes a valid calendar date, but one lying before the
pandas `Timestamp` minimum. -/
def fireC4oob : List FireRow :=
  [⟨"서울특별시", 1500, 1, "15000101", "전기적요인", "강남구", 0, 0, 0⟩]

/-- Counterexample to C4 as stated: `"15000101"` has exactly 8 digits (all
three digit extractors succeed) and denotes a valid calendar date
(`mkValidYmd` succeeds), so the claim asserts ingestion succeeds — yet
ingestion raises: real pandas raises `OutOfBoundsDatetime` for dates outside
its `Timestamp` range, a failure mode the claimed iff omits. -/
theorem C4_out_of_bounds_counterexample :
    preprocess_fire fireC4oob = none ∧
    yearDigits "15000101" = some 1500 ∧
    monthDigits "15000101" = some 1 ∧
    dayDigits "15000101" = some 1 ∧
    mkValidYmd 1500 1 1 = some ⟨1500, 1, 1⟩ :=
  ⟨by decide, by decide, by decide, by decide, by decide⟩

/-- **C4 (amended).** Incident ingestion fails (raises, propagating, with no
silent per-row default or skipping — failure is all-or-nothing over the
filtered table) if and only if some region-selected row's date field fails to
parse; and a date field parses exactly when it consists of exactly 8 decimal
digits denoting a valid calendar date that lies inside the pandas `Timestamp`
range (1677-09-22 to 2262-04-11).  Outside that range `pd.to_datetime`
raises `OutOfBoundsDatetime` even on valid calendar dates, so "valid 8-digit
date" alone does not guarantee success. -/
theorem C4_ingestion_fails_iff_unparseable_date (fire : List FireRow) :
    (preprocess_fire fire = none ↔
      ∃ r ∈ seoulOnly fire, parseYmd r.OCRN_YMD = none) ∧
    (∀ (s : String) (d : Ymd),
      parseYmd s = some d ↔
        yearDigits s = some d.y ∧ monthDigits s = some d.m ∧
        dayDigits s = some d.d ∧ mkValidYmd d.y d.m d.d = some d ∧
        inTimestampRange d = true) := by
  constructor
  · unfold preprocess_fire
    rw [Option.map_eq_none', mapOpt_eq_none_iff]
    constructor
    · rintro ⟨r, hr, hnone⟩
      refine ⟨r, hr, ?_⟩
      unfold mkSeoulRow at hnone
      exact Option.map_eq_none'.mp hnone
    · rintro ⟨r, hr, hnone⟩
      refine ⟨r, hr, ?_⟩
      unfold mkSeoulRow
      rw [hnone]
      rfl
  · intro s d
    constructor
    · intro h
      unfold parseYmd at h
      cases hy : yearDigits s with
      | none => rw [hy] at h; exact absurd h (by simp)
      | some y =>
        cases hm : monthDigits s with
        | none => rw [hy, hm] at h; exact absurd h (by simp)
        | some m =>
          cases hd : dayDigits s with
          | none => rw [hy, hm, hd] at h; exact absurd h (by simp)
          | some dd =>
            rw [hy, hm, hd] at h
            simp only at h
            cases hv : mkValidYmd y m dd with
            | none => rw [hv] at h; exact absurd h (by simp)
            | some dt =>
              rw [hv, Option.some_bind] at h
              split at h
              · rename_i hrange
                injection h with h
                subst h
                have hdt := mkValidYmd_eq hv
                subst hdt
                exact ⟨rfl, rfl, rfl, hv, hrange⟩
              · exact absurd h (by simp)
    · rintro ⟨hy, hm, hd, hv, hr⟩
      unfold parseYmd
      rw [hy, hm, hd]
      simp only
      rw [hv, Option.some_bind, if_pos hr]

/-- A one-row incident table whose region-selected row has date month 13. -/
def fireC4bad : List FireRow :=
  [⟨"서울특별시", 2024, 13, "20241301", "전기적요인", "강남구", 0, 0, 0⟩]

/-- Witness for C4 (amended): a selected invalid-calendar date makes
ingestion raise, and an in-range valid 8-digit date parses, with every
conjunct of the success characterisation discharged concretely. -/
theorem C4_ingestion_fails_witness :
    preprocess_fire fireC4bad = none ∧
    parseYmd "20240101" = some ⟨2024, 1, 1⟩ :=
  ⟨(C4_ingestion_fails_iff_unparseable_date fireC4bad).1.mpr
      ⟨⟨"서울특별시", 2024, 13, "20241301", "전기적요인", "강남구", 0, 0, 0⟩,
        by decide, by decide⟩,
   ((C4_ingestion_fails_iff_unparseable_date fireC4bad).2 "20240101"
      ⟨2024, 1, 1⟩).mpr
     ⟨by decide, by decide, by decide, by decide, by decide⟩⟩

/-- **C3.** The counts of the monthly incident summary sum to the number of
rows of the region-filtered incident table. -/
theorem C3_monthly_counts_sum (fire : List FireRow) (out : FireOut)
    (h : preprocess_fire fire = some out) :
    (out.monthly.map Prod.snd).sum = (seoulOnly fire).length := by
  obtain ⟨seoul, hmap, _, hm, _, _⟩ := preprocess_fire_eq_some h
  rw [hm]
  have hperm :=
    (insSort_perm natPairKeyLe
      (groupCount (fun s => (s.year, s.month)) seoul)).map Prod.snd
  rw [hperm.sum_eq, groupCount_sum]
  exact mapOpt_length hmap

/-- The three-row scenario of the specification: dates `20240101`,
`20240101`, `20240215`, region matching all three. -/
def fireScenario : List FireRow :=
  [⟨"서울특별시", 2024, 1, "20240101", "전기적요인", "강남구", 0, 0, 0⟩,
   ⟨"서울특별시", 2024, 1, "20240101", "전기적요인", "강서구", 0, 0, 0⟩,
   ⟨"서울특별시", 2024, 2, "20240215", "방화", "강남구", 0, 0, 0⟩]

/-- The computed pipeline output on `fireScenario`. -/
def fireScenarioOut : FireOut :=
  (preprocess_fire fireScenario).getD ⟨[], [], [], []⟩

/-- Witness for C3, on the specification's own scenario: the monthly counts
are `(2024,1) ↦ 2, (2024,2) ↦ 1` and sum to the filtered length 3. -/
theorem C3_monthly_counts_sum_witness :
    preprocess_fire fireScenario = some fireScenarioOut ∧
    (fireScenarioOut.monthly.map Prod.snd).sum = (seoulOnly fireScenario).length ∧
    fireScenarioOut.monthly = [((2024, 1), 2), ((2024, 2), 1)] ∧
    (seoulOnly fireScenario).length = 3 :=
  ⟨rfl, C3_monthly_counts_sum fireScenario fireScenarioOut rfl, by decide, by decide⟩

/-- **C8.** A region value matching zero rows yields an empty derived table
without raising, and every downstream aggregation and join applied to the
empty table yields an empty — not absent — result without raising. -/
theorem C8_empty_region_safe (fire : List FireRow) (weather : List WeatherRow)
    (hf : seoulOnly fire = []) (hw : weather.filter weatherPred = []) :
    preprocess_fire fire = some ⟨[], [], [], []⟩ ∧
    preprocess_weather weather = some ⟨[], [], []⟩ ∧
    (∀ dw, make_daily_merge [] dw = []) ∧
    (∀ mw : List ((Nat × Nat) × WAgg), monthly_merge [] mw = []) := by
  refine ⟨?_, ?_, fun dw => rfl, fun mw => rfl⟩
  · unfold preprocess_fire
    rw [hf]
    rfl
  · unfold preprocess_weather
    rw [hw]
    rfl

/-- A one-row incident table with no row of the target region. -/
def fireNoSeoul : List FireRow :=
  [⟨"부산광역시", 2024, 1, "20240101", "전기적요인", "사하구", 0, 0, 0⟩]

/-- A one-row weather table with no row of the target station. -/
def weatherNoSeoul : List WeatherRow :=
  [⟨"대구", "2024-01-01 01:00", 1, 2, 3⟩]

/-- Witness for C8 at concrete region-less tables. -/
theorem C8_empty_region_safe_witness :
    seoulOnly fireNoSeoul = [] ∧
    weatherNoSeoul.filter weatherPred = [] ∧
    preprocess_fire fireNoSeoul = some ⟨[], [], [], []⟩ ∧
    preprocess_weather weatherNoSeoul = some ⟨[], [], []⟩ :=
  ⟨by decide, by decide,
   (C8_empty_region_safe fireNoSeoul weatherNoSeoul (by decide) (by decide)).1,
   (C8_empty_region_safe fireNoSeoul weatherNoSeoul (by decide) (by decide)).2.1⟩

/-- **C6 (amended).** The cause-category and sub-region summaries are sorted
descending by count, and the output is a deterministic function of the input
(stable under re-run).  The original claim's tie-break — first-encounter
order of the group keys — does not hold: `groupby` sorts the group keys
before `sort_values` runs, see `C6_tie_break_counterexample`. -/
theorem C6_ranking_sorted_desc (fire : List FireRow) (out : FireOut)
    (h : preprocess_fire fire = some out) :
    out.cause.Pairwise (fun a b => b.2 ≤ a.2) ∧
    out.region.Pairwise (fun a b => b.2 ≤ a.2) ∧
    ∀ out', preprocess_fire fire = some out' → out' = out := by
  obtain ⟨seoul, _, _, _, hc, hr⟩ := preprocess_fire_eq_some h
  have htot : ∀ a b : String × Nat,
      countDescLe a b = true ∨ countDescLe b a = true := by
    intro a b
    unfold countDescLe
    rcases Nat.le_total b.2 a.2 with h' | h'
    · exact Or.inl (decide_eq_true h')
    · exact Or.inr (decide_eq_true h')
  have htr : ∀ a b c : String × Nat, countDescLe a b = true →
      countDescLe b c = true → countDescLe a c = true := by
    intro a b c hab hbc
    unfold countDescLe at hab hbc ⊢
    exact decide_eq_true
      (Nat.le_trans (of_decide_eq_true hbc) (of_decide_eq_true hab))
  refine ⟨?_, ?_, ?_⟩
  · rw [hc]
    exact (insSort_pairwise htot htr _).imp (fun hab => of_decide_eq_true hab)
  · rw [hr]
    exact (insSort_pairwise htot htr _).imp (fun hab => of_decide_eq_true hab)
  · intro out' h'
    rw [h] at h'
    exact (Option.some.inj h').symm

/-- A two-row incident table whose cause categories are first encountered in
the order `"b"`, `"a"` and tie with one incident each. -/
def fireC6 : List FireRow :=
  [⟨"서울특별시", 2024, 1, "20240101", "b", "gu1", 0, 0, 0⟩,
   ⟨"서울특별시", 2024, 1, "20240102", "a", "gu2", 0, 0, 0⟩]

/-- The computed pipeline output on `fireC6`. -/
def fireC6out : FireOut := (preprocess_fire fireC6).getD ⟨[], [], [], []⟩

/-- Witness for C6 (amended) at a concrete input. -/
theorem C6_ranking_sorted_desc_witness :
    preprocess_fire fireC6 = some fireC6out ∧
    fireC6out.cause.Pairwise (fun a b => b.2 ≤ a.2) :=
  ⟨rfl, (C6_ranking_sorted_desc fireC6 fireC6out rfl).1⟩

/-- Counterexample to C6 as stated: on `fireC6` the cause keys are first
encountered in the order `"b"`, `"a"` and their counts tie at 1, so the
claimed first-encounter tie-break predicts the summary `[("b",1), ("a",1)]`;
the code instead produces `[("a",1), ("b",1)]`, because `groupby` sorts the
group keys before the (count-keyed) `sort_values` runs. -/
theorem C6_tie_break_counterexample :
    (preprocess_fire fireC6).map (fun o => o.cause) = some [("a", 1), ("b", 1)] ∧
    (preprocess_fire fireC6).map (fun o => o.cause) ≠ some [("b", 1), ("a", 1)] := by
  exact ⟨by decide, by decide⟩

/-- A one-row incident table whose `OCRN_YR`/`OCRN_MM` columns (2023, 5)
disagree with its `OCRN_YMD` date string `"20240101"`. -/
def fireC5 : List FireRow :=
  [⟨"서울특별시", 2023, 5, "20240101", "전기적요인", "강남구", 0, 0, 0⟩]

/-- Counterexample to C5 as stated: ingestion succeeds on `fireC5`, and the
derived row has `year = 2023` but `occurredOn.y = 2024` — the year/month
fields are copied from the `OCRN_YR`/`OCRN_MM` columns, not derived from the
same source date as `occurredOn`, so the consistency invariant fails. -/
theorem C5_year_month_counterexample :
    (preprocess_fire fireC5).map
        (fun o => o.seoul.map (fun s => (s.year, s.occurredOn.y))) =
      some [(2023, 2024)] ∧ (2023 : Nat) ≠ 2024 := by
  exact ⟨by decide, by decide⟩

/-- **C5 (amended).** In every row of a successfully derived incident table,
`year`/`month` are copies of the `OCRN_YR`/`OCRN_MM` columns while
`occurredOn` is parsed from the `OCRN_YMD` string; the claimed consistency
`occurredOn.y = year ∧ occurredOn.m = month` holds for exactly those rows
whose `OCRN_YR`/`OCRN_MM` columns agree with the year/month digit substrings
of the 8-digit date field. -/
theorem C5_year_month_consistency (fire : List FireRow) (out : FireOut)
    (h : preprocess_fire fire = some out) :
    ∀ s ∈ out.seoul,
      s.year = s.src.OCRN_YR ∧ s.month = s.src.OCRN_MM ∧
      parseYmd s.src.OCRN_YMD = some s.occurredOn ∧
      (yearDigits s.src.OCRN_YMD = some s.src.OCRN_YR → s.occurredOn.y = s.year) ∧
      (monthDigits s.src.OCRN_YMD = some s.src.OCRN_MM →
        s.occurredOn.m = s.month) := by
  obtain ⟨seoul, hmap, hs, _, _, _⟩ := preprocess_fire_eq_some h
  intro s hsmem
  rw [hs] at hsmem
  obtain ⟨r, _, hmk⟩ := mapOpt_mem hmap hsmem
  unfold mkSeoulRow at hmk
  cases hp : parseYmd r.OCRN_YMD with
  | none => rw [hp] at hmk; exact absurd hmk (by simp)
  | some d =>
    rw [hp] at hmk
    simp only [Option.map_some', Option.some.injEq] at hmk
    subst hmk
    obtain ⟨hy, hm⟩ := parseYmd_digits hp
    refine ⟨rfl, rfl, hp, ?_, ?_⟩
    · intro hyd
      exact Option.some.inj (hy.symm.trans hyd)
    · intro hmd
      exact Option.some.inj (hm.symm.trans hmd)

/-- A one-row incident table whose year/month columns agree with the digits
of its date field. -/
def fireC5ok : List FireRow :=
  [⟨"서울특별시", 2024, 1, "20240101", "전기적요인", "강남구", 0, 0, 0⟩]

/-- The computed pipeline output on `fireC5ok`. -/
def fireC5okOut : FireOut := (preprocess_fire fireC5ok).getD ⟨[], [], [], []⟩

/-- The derived row of `fireC5ok`. -/
def seoulRowC5 : SeoulFireRow :=
  ⟨⟨"서울특별시", 2024, 1, "20240101", "전기적요인", "강남구", 0, 0, 0⟩,
    2024, 1, ⟨2024, 1, 1⟩⟩

/-- Witness for C5 (amended): with consistent source columns the invariant
holds on the derived row. -/
theorem C5_year_month_consistency_witness :
    preprocess_fire fireC5ok = some fireC5okOut ∧
    seoulRowC5 ∈ fireC5okOut.seoul ∧
    yearDigits seoulRowC5.src.OCRN_YMD = some seoulRowC5.src.OCRN_YR ∧
    seoulRowC5.occurredOn.y = seoulRowC5.year ∧
    seoulRowC5.occurredOn.m = seoulRowC5.month := by
  have h1 : preprocess_fire fireC5ok = some fireC5okOut := rfl
  have h2 : seoulRowC5 ∈ fireC5okOut.seoul := by decide
  have h3 := C5_year_month_consistency fireC5ok fireC5okOut h1 seoulRowC5 h2
  exact ⟨h1, h2, by decide, h3.2.2.2.1 (by decide), h3.2.2.2.2 (by decide)⟩

/-- **C7.** For every date key of the daily weather summary, the summary
value is the mean of the temperatures, the mean of the humidities and the sum
of the precipitations of the (nonempty) set of derived weather rows carrying
that date — in particular duplicates for one date are averaged/summed, not
assumed away. -/
theorem C7_daily_weather_mean_sum (weather : List WeatherRow)
    (out : WeatherOut) (h : preprocess_weather weather = some out) (k : Ymd)
    (wa : WAgg) (hmem : (k, wa) ∈ out.daily) :
    wa.temperature =
      qmean ((out.w.filter (fun s => decide (s.date = k))).map
        (fun s => s.src.temperatureC)) ∧
    wa.humidity =
      qmean ((out.w.filter (fun s => decide (s.date = k))).map
        (fun s => s.src.humidityPct)) ∧
    wa.precipitation =
      ((out.w.filter (fun s => decide (s.date = k))).map
        (fun s => s.src.precipitationMm)).sum ∧
    out.w.filter (fun s => decide (s.date = k)) ≠ [] := by
  obtain ⟨w, _, hw, _, hd⟩ := preprocess_weather_eq_some h
  rw [hd] at hmem
  have hmem' := (insSort_perm ymdKeyLe _).mem_iff.mp hmem
  unfold groupWAgg at hmem'
  rw [List.mem_map] at hmem'
  obtain ⟨⟨k0, g⟩, hg, heq⟩ := hmem'
  obtain ⟨hk, hwa⟩ : k0 = k ∧ wAggOf g = wa := by simpa using heq
  subst hk
  obtain ⟨hgf, hgne⟩ := groupRows_mem (fun s : WxRow => s.date) hg
  rw [hw, ← hgf, ← hwa]
  exact ⟨rfl, rfl, rfl, hgne⟩

/-- The two-row weather scenario of the specification: two observations for
`2024-01-01` with temperatures 0 °C and 4 °C (and precipitations 3 mm and
5 mm). -/
def weatherScenario : List WeatherRow :=
  [⟨"서울", "2024-01-01 01:00", 0, 40, 3⟩,
   ⟨"서울", "2024-01-01 02:00", 4, 60, 5⟩]

/-- The computed pipeline output on `weatherScenario`. -/
def weatherScenarioOut : WeatherOut :=
  (preprocess_weather weatherScenario).getD ⟨[], [], []⟩

/-- The daily aggregate of `weatherScenario` at `2024-01-01`. -/
def scenarioAgg : WAgg :=
  wAggOf (weatherScenarioOut.w.filter (fun s => decide (s.date = ⟨2024, 1, 1⟩)))

/-- Witness for C7 on the specification's own scenario: the daily summary
for `2024-01-01` reports mean temperature `(0 + 4) / 2 = 2` and summed
precipitation `3 + 5`. -/
theorem C7_daily_weather_mean_sum_witness :
    preprocess_weather weatherScenario = some weatherScenarioOut ∧
    (⟨2024, 1, 1⟩, scenarioAgg) ∈ weatherScenarioOut.daily ∧
    scenarioAgg.temperature =
      qmean ((weatherScenarioOut.w.filter
        (fun s => decide (s.date = ⟨2024, 1, 1⟩))).map
          (fun s => s.src.temperatureC)) ∧
    scenarioAgg.temperature = 2 ∧
    scenarioAgg.precipitation = 3 + 5 := by
  have h1 : preprocess_weather weatherScenario = some weatherScenarioOut := rfl
  have h2 : (⟨2024, 1, 1⟩, scenarioAgg) ∈ weatherScenarioOut.daily :=
    List.mem_singleton.mpr rfl
  refine ⟨h1, h2,
    (C7_daily_weather_mean_sum weatherScenario weatherScenarioOut h1
      ⟨2024, 1, 1⟩ scenarioAgg h2).1, ?_, ?_⟩
  · show qmean [(0 : ℚ), 4] = 2
    norm_num [qmean]
  · show ([(3 : ℚ), 5]).sum = 3 + 5
    norm_num

/-- Counterexample to C2 as stated: the empty file is read successfully
(its byte content is `[]`), every candidate decodes it to the empty text,
whose parse raises `EmptyDataError`; the last-resort decode produces the same
empty text, so its parse raises too — and that final parse is outside the
exception handler, so the error propagates.  The reader therefore raises on
successfully-read content, refuting both "the last-resort path always
succeeds structurally" and "the reader raises only on a hard I/O error". -/
theorem C2_reader_counterexample : read_csv_any pandasCodecs [] = none := rfl

/-- **C2 (amended).** For every byte content successfully read, the reader
returns a parsed table if and only if some candidate decode-and-parse
succeeds.  When all four candidates fail, the last-resort latin1 decode with
invalid bytes ignored yields exactly the text of the already-failed strict
latin1 candidate, so the last-resort parse fails identically and its error
propagates to the caller: the reader can raise on successfully-read content
(e.g. an empty file), not only on hard I/O errors. -/
theorem C2_reader_raises_iff_all_candidates_fail (τ : Type) (c : Codecs τ)
    (raw : List Nat) (h : ∀ b ∈ raw, b < 256) :
    read_csv_any c raw = none ↔
      ((c.utf8sig raw).bind c.parse = none ∧
       (c.cp949 raw).bind c.parse = none ∧
       (c.euckr raw).bind c.parse = none ∧
       (latin1DecodeStrict raw).bind c.parse = none) := by
  have hfb : c.parse (latin1DecodeIgnore raw) =
      (latin1DecodeStrict raw).bind c.parse := by
    rw [latin1_strict_eq_ignore h]
    rfl
  unfold read_csv_any
  cases h1 : (c.utf8sig raw).bind c.parse with
  | some t => simp [h1]
  | none =>
    cases h2 : (c.cp949 raw).bind c.parse with
    | some t => simp [h1, h2]
    | none =>
      cases h3 : (c.euckr raw).bind c.parse with
      | some t => simp [h1, h2, h3]
      | none =>
        cases h4 : (latin1DecodeStrict raw).bind c.parse with
        | some t => simp [h1, h2, h3, h4]
        | none => simp [h1, h2, h3, h4, hfb]

/-- Witness for C2 (amended) at the concrete bytes `"a"` (ASCII 97). -/
theorem C2_reader_raises_iff_witness :
    (∀ b ∈ [97], b < 256) ∧
    (read_csv_any pandasCodecs [97] = none ↔
      ((pandasCodecs.utf8sig [97]).bind pandasCodecs.parse = none ∧
       (pandasCodecs.cp949 [97]).bind pandasCodecs.parse = none ∧
       (pandasCodecs.euckr [97]).bind pandasCodecs.parse = none ∧
       (latin1DecodeStrict [97]).bind pandasCodecs.parse = none)) :=
  ⟨by decide,
   C2_reader_raises_iff_all_candidates_fail (List (List Char)) pandasCodecs
     [97] (by decide)⟩

/-- **C10.** Decoding a byte string as latin1 with errors ignored produces
exactly the same text as strict latin1 decoding (latin1 assigns a character
to every byte, so nothing is ever dropped); consequently the reader's
last-resort parse operates on the same text — and returns the same result —
as its fourth (strict latin1) candidate attempt. -/
theorem C10_latin1_ignore_equals_strict (raw : List Nat)
    (h : ∀ b ∈ raw, b < 256) :
    latin1DecodeStrict raw = some (latin1DecodeIgnore raw) ∧
    ∀ (τ : Type) (c : Codecs τ),
      c.parse (latin1DecodeIgnore raw) = (latin1DecodeStrict raw).bind c.parse := by
  refine ⟨latin1_strict_eq_ignore h, fun τ c => ?_⟩
  rw [latin1_strict_eq_ignore h]
  rfl

/-- Witness for C10 at the concrete bytes `[0, 72, 255]`. -/
theorem C10_latin1_ignore_equals_strict_witness :
    (∀ b ∈ [0, 72, 255], b < 256) ∧
    latin1DecodeStrict [0, 72, 255] = some (latin1DecodeIgnore [0, 72, 255]) :=
  ⟨by decide, (C10_latin1_ignore_equals_strict [0, 72, 255] (by decide)).1⟩
